import Mathlib

/-!
Shallow embedding of the derived-metrics and milestone-detection engine of the
recovery-companion app: the streak calculator and dashboard stats
(`calculateStreak`, `fetchStats`, `fetchCheckIns` in the dashboard page), the
milestone evaluator (`checkMilestones` in `GoalsMilestones.tsx`), the goal
progress projector (`getGoalProgress`, `getDaysUntilTarget` in
`GoalsMilestones.tsx`), and the summary statistics of `ProgressCharts.tsx`.

Calendar days are modelled as integers (day numbers); timestamps measured in
days as rationals.  JavaScript floating-point results that can be non-finite
(the unguarded division in `getGoalProgress`) are modelled by `JsNum`, a
rational extended with the IEEE special values the code can actually produce.
-/

namespace RecoveryApp

/-- A milestone record, restricted to the fields the evaluator's
deduplication check reads (`m.milestone_type`, `m.milestone_value`). -/
structure Milestone where
  milestone_type : String
  milestone_value : Nat
deriving DecidableEq, Repr

/-- The fixed milestone threshold tables (`MILESTONE_TYPES` in
`GoalsMilestones.tsx`). -/
def MILESTONE_TYPES : List (String × List Nat) :=
  [("days_clean", [1, 7, 30, 60, 90, 180, 365, 730]),
   ("meetings_attended", [1, 5, 10, 25, 50, 100]),
   ("check_ins_completed", [7, 30, 50, 100]),
   ("goals_achieved", [1, 3, 5, 10])]

/-- `MILESTONE_TYPES.find(m => m.type === t)?.values || []`. -/
def valuesFor (t : String) : List Nat :=
  ((MILESTONE_TYPES.find? (fun m => m.1 == t)).map Prod.snd).getD []

/-- One `for (const milestone of values)` loop of `checkMilestones`: for each
threshold `v` with `counter >= v`, insert a new milestone of type `mtype`
unless a record with the same `(milestone_type, milestone_value)` already
exists.  The dedup check reads the `milestones` state captured at the start of
the run, so `existing` is fixed for the whole loop. -/
def milestonePass (mtype : String) (counter : ℤ) (existing : List Milestone) :
    List Nat → List Milestone
  | [] => []
  | v :: rest =>
    if (v : ℤ) ≤ counter then
      if existing.any (fun m => m.milestone_type == mtype && m.milestone_value == v) then
        milestonePass mtype counter existing rest
      else
        ⟨mtype, v⟩ :: milestonePass mtype counter existing rest
    else
      milestonePass mtype counter existing rest

/-- `checkMilestones` from `GoalsMilestones.tsx`: runs the `days_clean` pass
(only when a recovery start date exists, `daysClean` being the derived
`floor((today - recovery_start_date) in days)` counter) and then the
`check_ins_completed` pass over the all-time check-in count.  Returns the list
of newly inserted milestones. -/
def checkMilestones (daysClean : Option ℤ) (checkInsCount : ℕ)
    (existing : List Milestone) : List Milestone :=
  (match daysClean with
   | some d => milestonePass "days_clean" d existing (valuesFor "days_clean")
   | none => []) ++
  milestonePass "check_ins_completed" (checkInsCount : ℤ) existing
    (valuesFor "check_ins_completed")

/-- Inner loop of `calculateStreak` (dashboard page): at index `i` the record's
date must equal `today - i`; on the first mismatch the loop breaks. -/
def streakAux (today : ℤ) : List ℤ → ℕ → ℕ
  | [], _ => 0
  | d :: rest, i => if d = today - (i : ℤ) then 1 + streakAux today rest (i + 1) else 0

/-- `calculateStreak` from the dashboard page: dates ordered most-recent-first,
one abstract day number per record (`toDateString` equality is day equality). -/
def calculateStreak (today : ℤ) (dates : List ℤ) : ℕ :=
  streakAux today dates 0

/-- `fetchCheckIns` (dashboard page) orders by date descending and applies
`.limit(7)`: of the full descending history only the first 7 records reach
the dashboard. -/
def fetchCheckIns (history : List ℤ) : List ℤ :=
  history.take 7

/-- The streak the dashboard displays: `calculateStreak` applied to the
7-record window returned by `fetchCheckIns`. -/
def dashboardStreak (today : ℤ) (history : List ℤ) : ℕ :=
  calculateStreak today (fetchCheckIns history)

/-- Average mood from `fetchStats` (dashboard page):
`moodData?.length ? moodData.reduce((sum, item) => sum + (item.mood_score || 0), 0) / moodData.length : 0`. -/
def avgMood (moods : List (Option ℚ)) : ℚ :=
  if moods.length ≠ 0 then (moods.map (fun m => m.getD 0)).sum / (moods.length : ℚ)
  else 0

/-- Modelled from the spec: the Aggregate Statistics Calculator's rolling
energy average.  Only the mood average appears under `src` (`fetchStats`); the
spec states the energy average follows the same sum/count-with-0-if-empty
rule, with a missing score counted as 0. -/
def avgEnergy (levels : List (Option ℚ)) : ℚ :=
  if levels.length ≠ 0 then (levels.map (fun m => m.getD 0)).sum / (levels.length : ℚ)
  else 0

/-- Modelled from the spec: the Aggregate Statistics Calculator's rolling
sleep-quality average, following the same sum/count-with-0-if-empty rule as
the mood average. -/
def avgSleep (levels : List (Option ℚ)) : ℚ :=
  if levels.length ≠ 0 then (levels.map (fun m => m.getD 0)).sum / (levels.length : ℚ)
  else 0

/-- `Math.round` on a (non-negative, as used here) rational: round half up. -/
def jsRound (q : ℚ) : ℤ :=
  ⌊q + 1 / 2⌋

/-- The Check-in Consistency summary card of `ProgressCharts.tsx`:
`Math.round((checkIns.length / parseInt(timeRange)) * 100)` where `timeRange`
is one of the window sizes 7, 30, 90. -/
def consistencyPercent (count window : ℕ) : ℤ :=
  jsRound ((count : ℚ) / (window : ℚ) * 100)

/-- A JavaScript number as relevant to the unguarded division in
`getGoalProgress`: an exact finite value, an infinity, or NaN. -/
inductive JsNum where
  | nan : JsNum
  | posInf : JsNum
  | negInf : JsNum
  | fin : ℚ → JsNum
deriving DecidableEq, Repr

/-- JavaScript `a / b` for finite operands; the divisor `+0` produces a signed
infinity, or NaN when the dividend is also zero. -/
def jsDiv (a b : ℚ) : JsNum :=
  if b = 0 then (if 0 < a then .posInf else if a < 0 then .negInf else .nan)
  else .fin (a / b)

/-- JavaScript multiplication by the positive literal `100`. -/
def jsMul100 : JsNum → JsNum
  | .nan => .nan
  | .posInf => .posInf
  | .negInf => .negInf
  | .fin q => .fin (q * 100)

/-- `Math.max(0, x)`: NaN propagates; `-Infinity` is replaced by `0`. -/
def jsMax0 : JsNum → JsNum
  | .nan => .nan
  | .posInf => .posInf
  | .negInf => .fin 0
  | .fin q => .fin (max 0 q)

/-- `Math.min(100, x)`: NaN propagates; `+Infinity` is replaced by `100`. -/
def jsMin100 : JsNum → JsNum
  | .nan => .nan
  | .posInf => .fin 100
  | .negInf => .negInf
  | .fin q => .fin (min 100 q)

/-- `getGoalProgress` from `GoalsMilestones.tsx`, with `created_at`,
`target_date` and today as day numbers:
`Math.min(100, Math.max(0, (elapsedDays / totalDays) * 100))`. -/
def getGoalProgress (isCompleted : Bool) (targetDate : Option ℤ)
    (createdAt today : ℤ) : JsNum :=
  if isCompleted then .fin 100
  else
    match targetDate with
    | none => .fin 0
    | some target =>
      let totalDays : ℚ := (target : ℚ) - (createdAt : ℚ)
      let elapsedDays : ℚ := (today : ℚ) - (createdAt : ℚ)
      jsMin100 (jsMax0 (jsMul100 (jsDiv elapsedDays totalDays)))

/-- `getDaysUntilTarget` from `GoalsMilestones.tsx`: timestamps in days as
rationals, `diffDays = Math.ceil(diffTime / dayMs)`, then the four rendered
strings. -/
def getDaysUntilTarget (target today : ℚ) : String :=
  let diffDays : ℤ := ⌈target - today⌉
  if diffDays < 0 then toString (-diffDays) ++ " days overdue"
  else if diffDays = 0 then "Due today"
  else if diffDays = 1 then "1 day left"
  else toString diffDays ++ " days left"

/-- Translation of the deduplication check
`milestones.find(m => m.milestone_type === t && m.milestone_value === v)`
to membership of the record `⟨t, v⟩`. -/
lemma any_milestone_eq (l : List Milestone) (t : String) (v : ℕ) :
    (l.any fun m => m.milestone_type == t && m.milestone_value == v) = true ↔
      (⟨t, v⟩ : Milestone) ∈ l := by
  simp only [List.any_eq_true, Bool.and_eq_true, beq_iff_eq]
  constructor
  · rintro ⟨⟨mt, mv⟩, hm, h1, h2⟩
    subst h1; subst h2
    exact hm
  · intro h
    exact ⟨_, h, rfl, rfl⟩

/-- A record is emitted by one pass of the evaluator iff its type tags the
pass, its value is a table threshold not exceeding the counter, and no
matching record already exists. -/
lemma mem_milestonePass {mtype : String} {counter : ℤ} {existing : List Milestone}
    {values : List Nat} {m : Milestone} :
    m ∈ milestonePass mtype counter existing values ↔
      m.milestone_type = mtype ∧ m.milestone_value ∈ values ∧
        (m.milestone_value : ℤ) ≤ counter ∧ m ∉ existing := by
  obtain ⟨mt, mv⟩ := m
  induction values with
  | nil => simp [milestonePass]
  | cons v rest ih =>
    rw [milestonePass]
    split_ifs with h1 h2
    · rw [any_milestone_eq] at h2
      rw [ih]
      simp only [List.mem_cons]
      constructor
      · rintro ⟨ht, hv, hle, hnot⟩
        exact ⟨ht, Or.inr hv, hle, hnot⟩
      · rintro ⟨ht, hv | hv, hle, hnot⟩
        · exfalso
          apply hnot
          subst ht; subst hv
          exact h2
        · exact ⟨ht, hv, hle, hnot⟩
    · rw [any_milestone_eq] at h2
      simp only [List.mem_cons, ih]
      constructor
      · rintro (heq | ⟨ht, hv, hle, hnot⟩)
        · cases heq
          exact ⟨rfl, Or.inl rfl, h1, h2⟩
        · exact ⟨ht, Or.inr hv, hle, hnot⟩
      · rintro ⟨ht, hv | hv, hle, hnot⟩
        · subst ht; subst hv
          exact Or.inl rfl
        · exact Or.inr ⟨ht, hv, hle, hnot⟩
    · rw [ih]
      simp only [List.mem_cons]
      constructor
      · rintro ⟨ht, hv, hle, hnot⟩
        exact ⟨ht, Or.inr hv, hle, hnot⟩
      · rintro ⟨ht, hv | hv, hle, hnot⟩
        · exfalso
          subst hv
          exact h1 hle
        · exact ⟨ht, hv, hle, hnot⟩

/-- A pass emits nothing when every qualifying threshold is already covered. -/
lemma milestonePass_eq_nil {mtype : String} {counter : ℤ} {existing : List Milestone}
    {values : List Nat}
    (h : ∀ v ∈ values, (v : ℤ) ≤ counter → (⟨mtype, v⟩ : Milestone) ∈ existing) :
    milestonePass mtype counter existing values = [] := by
  induction values with
  | nil => rfl
  | cons v rest ih =>
    rw [milestonePass]
    have hrest : ∀ v ∈ rest, (v : ℤ) ≤ counter → (⟨mtype, v⟩ : Milestone) ∈ existing :=
      fun w hw => h w (List.mem_cons_of_mem _ hw)
    split_ifs with h1 h2
    · exact ih hrest
    · exfalso
      apply h2
      rw [any_milestone_eq]
      exact h v (List.mem_cons_self _ _) h1
    · exact ih hrest

/-- The streak loop never counts more records than the list holds. -/
lemma streakAux_le_length (today : ℤ) (l : List ℤ) (i : ℕ) :
    streakAux today l i ≤ l.length := by
  induction l generalizing i with
  | nil => simp [streakAux]
  | cons d rest ih =>
    rw [streakAux]
    split_ifs
    · have := ih (i + 1)
      simp only [List.length_cons]
      omega
    · simp

/-- Every index below the streak holds the expected consecutive date. -/
lemma streakAux_prefix (today : ℤ) (l : List ℤ) (i j : ℕ)
    (hj : j < streakAux today l i) : l[j]? = some (today - (i + j : ℕ)) := by
  induction l generalizing i j with
  | nil => simp [streakAux] at hj
  | cons d rest ih =>
    rw [streakAux] at hj
    split_ifs at hj with hd
    · match j with
      | 0 =>
        simpa using hd
      | k + 1 =>
        have hk : k < streakAux today rest (i + 1) := by omega
        have := ih (i + 1) k hk
        simpa [show i + 1 + k = i + (k + 1) by omega] using this
    · omega

/-- The record at the streak index (when one exists) breaks the chain. -/
lemma streakAux_stop (today : ℤ) (l : List ℤ) (i : ℕ)
    (h : streakAux today l i < l.length) :
    l[streakAux today l i]? ≠ some (today - (i + streakAux today l i : ℕ)) := by
  induction l generalizing i with
  | nil => simp at h
  | cons d rest ih =>
    rw [streakAux] at h ⊢
    split_ifs at h ⊢ with hd
    · have h' : streakAux today rest (i + 1) < rest.length := by
        simp only [List.length_cons] at h
        omega
      have hrec := ih (i + 1) h'
      rw [show (1 : ℕ) + streakAux today rest (i + 1) =
            streakAux today rest (i + 1) + 1 by omega,
          List.getElem?_cons_succ,
          show i + (streakAux today rest (i + 1) + 1) =
            i + 1 + streakAux today rest (i + 1) by omega]
      exact hrec
    · simpa using hd

/-- Claim C2: `calculateStreak` returns the length of the longest prefix in
which the `i`-th record's date equals `today - i` (day equality), stopping at
the first mismatch; the empty list gives 0, and `[today, today-1, today-3]`
gives 2. -/
theorem calculateStreak_spec (today : ℤ) (dates : List ℤ) :
    calculateStreak today dates ≤ dates.length ∧
    (∀ j : ℕ, j < calculateStreak today dates → dates[j]? = some (today - j)) ∧
    (calculateStreak today dates < dates.length →
      dates[calculateStreak today dates]? ≠ some (today - calculateStreak today dates)) ∧
    calculateStreak today [] = 0 ∧
    calculateStreak today [today, today - 1, today - 3] = 2 := by
  refine ⟨streakAux_le_length today dates 0, ?_, ?_, rfl, ?_⟩
  · intro j hj
    have := streakAux_prefix today dates 0 j hj
    simpa using this
  · intro hlt
    have := streakAux_stop today dates 0 hlt
    simpa [calculateStreak] using this
  · show streakAux today [today, today - 1, today - 3] 0 = 2
    rw [streakAux, if_pos (by push_cast; ring)]
    rw [streakAux, if_pos (by push_cast; ring)]
    rw [streakAux, if_neg (by push_cast; intro h; omega)]

/-- Closed instance of `calculateStreak_spec`: for `today = 10` and dates
`[10, 9, 7]` the streak is 2 and index 0 holds the expected date. -/
theorem calculateStreak_spec_witness :
    [(10 : ℤ), 9, 7][(0 : ℕ)]? = some (10 - ((0 : ℕ) : ℤ)) := by
  exact (calculateStreak_spec 10 [10, 9, 7]).2.1 0 (by decide)

/-- Claim C10: the dashboard fetches at most the 7 most recent check-ins and
computes the displayed streak from that list, so the reported streak is at
most 7 even when the true unbroken streak is longer (here: a true streak of 8
is reported as 7). -/
theorem dashboardStreak_le_seven (today : ℤ) (history : List ℤ) :
    dashboardStreak today history ≤ 7 ∧
    dashboardStreak 0 [0, -1, -2, -3, -4, -5, -6, -7] = 7 ∧
    calculateStreak 0 [0, -1, -2, -3, -4, -5, -6, -7] = 8 := by
  refine ⟨?_, by decide, by decide⟩
  have h := streakAux_le_length today (fetchCheckIns history) 0
  have h7 : (fetchCheckIns history).length ≤ 7 := by
    simp [fetchCheckIns]
  calc dashboardStreak today history ≤ (fetchCheckIns history).length := h
    _ ≤ 7 := h7

/-- Claim C1: a single evaluation pass emits exactly the thresholds of the
fixed table that are at most the counter and have no existing milestone with
the same `(milestone_type, milestone_value)`; with `days_clean = 35` and no
existing milestones it emits exactly `{1, 7, 30}`, and with an existing
milestone at threshold 7 it emits exactly `{1, 30}`. -/
theorem checkMilestones_emits_qualifying (d : ℤ) (c : ℕ) (existing : List Milestone)
    (m : Milestone) :
    (m ∈ checkMilestones (some d) c existing ↔
      (m.milestone_type = "days_clean" ∧ m.milestone_value ∈ valuesFor "days_clean" ∧
        (m.milestone_value : ℤ) ≤ d ∧ m ∉ existing) ∨
      (m.milestone_type = "check_ins_completed" ∧
        m.milestone_value ∈ valuesFor "check_ins_completed" ∧
        (m.milestone_value : ℤ) ≤ (c : ℤ) ∧ m ∉ existing)) ∧
    checkMilestones (some 35) 0 [] =
      [⟨"days_clean", 1⟩, ⟨"days_clean", 7⟩, ⟨"days_clean", 30⟩] ∧
    checkMilestones (some 35) 0 [⟨"days_clean", 7⟩] =
      [⟨"days_clean", 1⟩, ⟨"days_clean", 30⟩] := by
  refine ⟨?_, by decide, by decide⟩
  simp only [checkMilestones, List.mem_append, mem_milestonePass]

/-- Closed instance of `checkMilestones_emits_qualifying`: threshold 30 is
emitted for `days_clean = 35` when only threshold 7 was already earned. -/
theorem checkMilestones_emits_qualifying_witness :
    (⟨"days_clean", 30⟩ : Milestone) ∈ checkMilestones (some 35) 0 [⟨"days_clean", 7⟩] := by
  exact (checkMilestones_emits_qualifying 35 0 [⟨"days_clean", 7⟩] ⟨"days_clean", 30⟩).1.mpr
    (Or.inl ⟨rfl, by decide, by decide, by decide⟩)

/-- Claim C5: milestone evaluation is idempotent — a second run whose existing
set includes the first run's newly inserted milestones inserts nothing. -/
theorem checkMilestones_idempotent (d : Option ℤ) (c : ℕ) (existing : List Milestone) :
    checkMilestones d c (checkMilestones d c existing ++ existing) = [] := by
  cases d with
  | none =>
    rw [show checkMilestones none c (checkMilestones none c existing ++ existing) =
          milestonePass "check_ins_completed" (c : ℤ)
            (checkMilestones none c existing ++ existing)
            (valuesFor "check_ins_completed") from rfl]
    apply milestonePass_eq_nil
    intro v hv hle
    by_cases hex : (⟨"check_ins_completed", v⟩ : Milestone) ∈ existing
    · exact List.mem_append_right _ hex
    · refine List.mem_append_left _ ?_
      rw [show checkMilestones none c existing =
            milestonePass "check_ins_completed" (c : ℤ) existing
              (valuesFor "check_ins_completed") from rfl]
      exact mem_milestonePass.mpr ⟨rfl, hv, hle, hex⟩
  | some dd =>
    rw [show checkMilestones (some dd) c (checkMilestones (some dd) c existing ++ existing) =
          milestonePass "days_clean" dd (checkMilestones (some dd) c existing ++ existing)
            (valuesFor "days_clean") ++
          milestonePass "check_ins_completed" (c : ℤ)
            (checkMilestones (some dd) c existing ++ existing)
            (valuesFor "check_ins_completed") from rfl,
        List.append_eq_nil]
    constructor
    · apply milestonePass_eq_nil
      intro v hv hle
      by_cases hex : (⟨"days_clean", v⟩ : Milestone) ∈ existing
      · exact List.mem_append_right _ hex
      · refine List.mem_append_left _ ?_
        rw [show checkMilestones (some dd) c existing =
              milestonePass "days_clean" dd existing (valuesFor "days_clean") ++
              milestonePass "check_ins_completed" (c : ℤ) existing
                (valuesFor "check_ins_completed") from rfl]
        refine List.mem_append_left _ ?_
        exact mem_milestonePass.mpr ⟨rfl, hv, hle, hex⟩
    · apply milestonePass_eq_nil
      intro v hv hle
      by_cases hex : (⟨"check_ins_completed", v⟩ : Milestone) ∈ existing
      · exact List.mem_append_right _ hex
      · refine List.mem_append_left _ ?_
        rw [show checkMilestones (some dd) c existing =
              milestonePass "days_clean" dd existing (valuesFor "days_clean") ++
              milestonePass "check_ins_completed" (c : ℤ) existing
                (valuesFor "check_ins_completed") from rfl]
        refine List.mem_append_right _ ?_
        exact mem_milestonePass.mpr ⟨rfl, hv, hle, hex⟩

/-- Counterexample to claim C9: even in a state where every threshold of every
table is reached (`days_clean` and check-in count far above all thresholds, no
existing milestones), the evaluator emits only `days_clean` and
`check_ins_completed` milestones — no `meetings_attended` or `goals_achieved`
milestone is ever emitted, although the tables declare those thresholds. -/
theorem checkMilestones_no_meetings_goals :
    checkMilestones (some 100000) 100000 [] =
      [⟨"days_clean", 1⟩, ⟨"days_clean", 7⟩, ⟨"days_clean", 30⟩, ⟨"days_clean", 60⟩,
       ⟨"days_clean", 90⟩, ⟨"days_clean", 180⟩, ⟨"days_clean", 365⟩, ⟨"days_clean", 730⟩,
       ⟨"check_ins_completed", 7⟩, ⟨"check_ins_completed", 30⟩,
       ⟨"check_ins_completed", 50⟩, ⟨"check_ins_completed", 100⟩] ∧
    ((checkMilestones (some 100000) 100000 []).any
      (fun m => m.milestone_type == "meetings_attended" ||
        m.milestone_type == "goals_achieved")) = false ∧
    valuesFor "meetings_attended" = [1, 5, 10, 25, 50, 100] ∧
    valuesFor "goals_achieved" = [1, 3, 5, 10] :=
  ⟨by decide, by decide, by decide, by decide⟩

/-- Claim C9 as amended: the evaluator compares only the days-clean and
check-ins-completed counters against their threshold tables; every emitted
milestone is of one of those two types (the meetings-attended and
goals-achieved tables are declared but never evaluated). -/
theorem checkMilestones_only_two_types (d : Option ℤ) (c : ℕ) (existing : List Milestone) :
    (checkMilestones d c existing).all
      (fun m => m.milestone_type == "days_clean" ||
        m.milestone_type == "check_ins_completed") = true := by
  rw [List.all_eq_true]
  intro m hm
  cases d with
  | none =>
    rw [show checkMilestones none c existing =
          milestonePass "check_ins_completed" (c : ℤ) existing
            (valuesFor "check_ins_completed") from rfl] at hm
    have ht := (mem_milestonePass.mp hm).1
    simp [ht]
  | some dd =>
    rw [show checkMilestones (some dd) c existing =
          milestonePass "days_clean" dd existing (valuesFor "days_clean") ++
          milestonePass "check_ins_completed" (c : ℤ) existing
            (valuesFor "check_ins_completed") from rfl,
        List.mem_append] at hm
    rcases hm with hm | hm
    · have ht := (mem_milestonePass.mp hm).1
      simp [ht]
    · have ht := (mem_milestonePass.mp hm).1
      simp [ht]

/-- Claim C4: goal progress is 100 for a completed goal, 0 without a target
date, and otherwise `clamp(elapsed / total * 100, 0, 100)` (whenever the
divisor `total` is nonzero, so the division is meaningful); in particular
`created_at = 0, target_date = 10, today = 5` gives 50 and `today = 15`
gives 100. -/
theorem getGoalProgress_spec :
    (∀ (td : Option ℤ) (c t : ℤ), getGoalProgress true td c t = .fin 100) ∧
    (∀ c t : ℤ, getGoalProgress false none c t = .fin 0) ∧
    (∀ td c t : ℤ, (td : ℚ) - (c : ℚ) ≠ 0 →
      getGoalProgress false (some td) c t =
        .fin (min 100 (max 0 (((t : ℚ) - (c : ℚ)) / ((td : ℚ) - (c : ℚ)) * 100)))) ∧
    getGoalProgress false (some 10) 0 5 = .fin 50 ∧
    getGoalProgress false (some 10) 0 15 = .fin 100 := by
  refine ⟨?_, ?_, ?_, ?_, ?_⟩
  · intro td c t
    simp [getGoalProgress]
  · intro c t
    simp [getGoalProgress]
  · intro td c t h
    simp [getGoalProgress, jsDiv, jsMul100, jsMax0, jsMin100, h]
  · norm_num [getGoalProgress, jsDiv, jsMul100, jsMax0, jsMin100]
  · norm_num [getGoalProgress, jsDiv, jsMul100, jsMax0, jsMin100]

/-- Closed instance of `getGoalProgress_spec`: the clamp formula at
`created_at = 0, target_date = 10, today = 5` evaluates to 50. -/
theorem getGoalProgress_spec_witness :
    getGoalProgress false (some 10) 0 5 = JsNum.fin 50 := by
  have h := getGoalProgress_spec.2.2.1 10 0 5 (by norm_num)
  rw [h]
  norm_num

/-- Claim C3 fails on the code: `getGoalProgress` has no guard for a
non-positive `total`.  With `created_at = 10, target_date = 5, today = 20`
(`total = -5 ≤ 0`, `elapsed = 10 ≥ 0`) the negative ratio is clamped to 0,
not the required 100; and with `created_at = target_date = today` the result
is NaN (`0/0`), not 100. -/
theorem getGoalProgress_unguarded :
    getGoalProgress false (some 5) 10 20 = .fin 0 ∧
    getGoalProgress false (some 0) 0 0 = .nan ∧
    JsNum.fin 0 ≠ JsNum.fin 100 ∧ JsNum.nan ≠ JsNum.fin 100 := by
  refine ⟨?_, ?_, by simp, by simp⟩ <;>
    norm_num [getGoalProgress, jsDiv, jsMul100, jsMax0, jsMin100]

/-- `sum/count` with junk rational division agrees with the guarded
`length ? sum/length : 0` average on every list. -/
lemma avg_formula (l : List (Option ℚ)) :
    (if l.length ≠ 0 then (l.map (fun m => m.getD 0)).sum / (l.length : ℚ) else 0) =
      (l.map (fun m => m.getD 0)).sum / (l.length : ℚ) := by
  split_ifs with h
  · rfl
  · have h0 : l = [] := List.length_eq_zero.mp (not_not.mp h)
    subst h0
    simp

/-- Claim C6: each average equals the sum of the scores (missing counted
as 0) divided by the record count, is 0 on the empty list, and is 6 over
`[{mood: 8}, {mood: 4}]`; the energy and sleep-quality averages follow the
same rule. -/
theorem averages_spec :
    (∀ moods : List (Option ℚ),
      avgMood moods = (moods.map (fun m => m.getD 0)).sum / (moods.length : ℚ)) ∧
    avgMood [] = 0 ∧
    avgMood [some 8, some 4] = 6 ∧
    (∀ l : List (Option ℚ),
      avgEnergy l = (l.map (fun m => m.getD 0)).sum / (l.length : ℚ)) ∧
    avgEnergy [] = 0 ∧
    (∀ l : List (Option ℚ),
      avgSleep l = (l.map (fun m => m.getD 0)).sum / (l.length : ℚ)) ∧
    avgSleep [] = 0 := by
  refine ⟨fun l => ?_, by norm_num [avgMood], by norm_num [avgMood],
    fun l => ?_, by norm_num [avgEnergy], fun l => ?_, by norm_num [avgSleep]⟩
  · rw [avgMood]
    exact avg_formula l
  · rw [avgEnergy]
    exact avg_formula l
  · rw [avgSleep]
    exact avg_formula l

/-- Claim C7: days-until-target is `ceil((target - today) in days)`, rendered
as "N days overdue" for negative values (N the absolute value), "Due today"
for zero, "1 day left" for one, and "N days left" otherwise; with the
concrete instances target = today, today + 1, today − 3. -/
theorem getDaysUntilTarget_spec :
    (∀ target today : ℚ, ⌈target - today⌉ < 0 →
      getDaysUntilTarget target today = toString (-⌈target - today⌉) ++ " days overdue") ∧
    (∀ target today : ℚ, ⌈target - today⌉ = 0 →
      getDaysUntilTarget target today = "Due today") ∧
    (∀ target today : ℚ, ⌈target - today⌉ = 1 →
      getDaysUntilTarget target today = "1 day left") ∧
    (∀ target today : ℚ, 1 < ⌈target - today⌉ →
      getDaysUntilTarget target today = toString ⌈target - today⌉ ++ " days left") ∧
    (∀ today : ℚ, getDaysUntilTarget today today = "Due today") ∧
    (∀ today : ℚ, getDaysUntilTarget (today + 1) today = "1 day left") ∧
    (∀ today : ℚ, getDaysUntilTarget (today - 3) today = "3 days overdue") := by
  refine ⟨?_, ?_, ?_, ?_, ?_, ?_, ?_⟩
  · intro target today h
    simp only [getDaysUntilTarget]
    rw [if_pos h]
  · intro target today h
    simp only [getDaysUntilTarget]
    rw [if_neg (by omega), if_pos h]
  · intro target today h
    simp only [getDaysUntilTarget]
    rw [if_neg (by omega), if_neg (by omega), if_pos h]
  · intro target today h
    simp only [getDaysUntilTarget]
    rw [if_neg (by omega), if_neg (by omega), if_neg (by omega)]
  · intro today
    simp only [getDaysUntilTarget]
    rw [show today - today = ((0 : ℤ) : ℚ) by push_cast; ring, Int.ceil_intCast]
    norm_num
  · intro today
    simp only [getDaysUntilTarget]
    rw [show today + 1 - today = ((1 : ℤ) : ℚ) by push_cast; ring, Int.ceil_intCast]
    norm_num
  · intro today
    simp only [getDaysUntilTarget]
    rw [show today - 3 - today = ((-3 : ℤ) : ℚ) by push_cast; ring, Int.ceil_intCast]
    norm_num
    rfl

/-- Closed instance of `getDaysUntilTarget_spec`: a target three days in the
past renders as "3 days overdue". -/
theorem getDaysUntilTarget_spec_witness :
    getDaysUntilTarget 0 3 = "3 days overdue" := by
  have hc : ⌈(0 : ℚ) - 3⌉ = -3 := by
    rw [show (0 : ℚ) - 3 = ((-3 : ℤ) : ℚ) by norm_num, Int.ceil_intCast]
  have h := getDaysUntilTarget_spec.1 0 3 (by rw [hc]; decide)
  rw [h, hc]
  rfl

/-- Claim C8: the consistency percentage is the record count over the window
size as a percentage rounded to nearest (within 1/2 of the exact ratio), and
it exceeds 100 exactly when the count exceeds the window size (duplicate-day
records) — in that case the value is not clamped to 100. -/
theorem consistencyPercent_spec (c w : ℕ) (hw : w = 7 ∨ w = 30 ∨ w = 90) :
    |(consistencyPercent c w : ℚ) - (c : ℚ) / (w : ℚ) * 100| ≤ 1 / 2 ∧
    (100 < consistencyPercent c w ↔ w < c) := by
  have hw0 : (0 : ℚ) < (w : ℚ) := by
    rcases hw with h | h | h <;> subst h <;> norm_num
  have hw200 : (w : ℚ) ≤ 200 := by
    rcases hw with h | h | h <;> subst h <;> norm_num
  set x : ℚ := (c : ℚ) / (w : ℚ) * 100 with hx
  have hcw : consistencyPercent c w = ⌊x + 1 / 2⌋ := rfl
  have hxw : x * (w : ℚ) = (c : ℚ) * 100 := by
    rw [hx]
    field_simp
  constructor
  · have h1 : ((⌊x + 1 / 2⌋ : ℤ) : ℚ) ≤ x + 1 / 2 := Int.floor_le _
    have h2 : x + 1 / 2 - 1 < ((⌊x + 1 / 2⌋ : ℤ) : ℚ) := Int.sub_one_lt_floor _
    rw [hcw, abs_le]
    constructor <;> linarith
  · rw [hcw]
    constructor
    · intro h
      by_contra hcle
      have hcle' : (c : ℚ) ≤ (w : ℚ) := by
        have : c ≤ w := Nat.le_of_not_lt hcle
        exact_mod_cast this
      have hx100 : x ≤ 100 := by
        nlinarith [hxw, hw0]
      have : ⌊x + 1 / 2⌋ < 101 := by
        rw [Int.floor_lt]
        push_cast
        linarith
      omega
    · intro h
      have hc1 : (w : ℚ) + 1 ≤ (c : ℚ) := by
        have : w + 1 ≤ c := h
        exact_mod_cast this
      have hx101 : (101 : ℚ) ≤ x + 1 / 2 := by
        nlinarith [hxw, hw0, hw200]
      have : (101 : ℤ) ≤ ⌊x + 1 / 2⌋ := by
        rw [Int.le_floor]
        push_cast
        linarith
      omega

/-- Closed instance of `consistencyPercent_spec`: 8 records in a 7-day window
give a value above 100 (not clamped). -/
theorem consistencyPercent_spec_witness :
    100 < consistencyPercent 8 7 :=
  (consistencyPercent_spec 8 7 (Or.inl rfl)).2.mpr (by norm_num)

end RecoveryApp
